import Mathlib

/-!
Verification development for the svreport repository.

The backend (`src/backend/database.js`, `src/backend/routes/openSource.js`,
`src/backend/routes/softwareRemarks.js`) keeps two SQLite tables,
`open_source_software` and `software_remarks`, each with an
`INTEGER PRIMARY KEY AUTOINCREMENT` id, a `UNIQUE NOT NULL software_title_id`
and `created_at` / `updated_at` columns defaulting to `CURRENT_TIMESTAMP`.
The Express routes expose list / upsert / delete for flags and list / upsert
for remarks; both upserts are implemented with SQLite `INSERT OR REPLACE`.

The frontend (`src/src/pages/SoftwareListPage.tsx` and the unnamed
`OpenSourceSoftwarePage` component) enriches CSV exports with vendor
information fetched in batches of 20 with a 100ms inter-batch delay, each
lookup falling back to the string "Unknown" on failure, and keeps a
per-render vendor lookup cache consulted by `fetchVendorInfo`.

Everything below is a shallow embedding of that code: JSON request bodies
are modelled with `Option` fields (`none` is an absent field), timestamps
are abstract `Nat` ticks supplied by the caller, and the SQLite tables are
lists of rows together with the AUTOINCREMENT sequence counter.
-/

namespace Svreport

/-- A row of the `open_source_software` table (`src/backend/database.js`):
`id INTEGER PRIMARY KEY AUTOINCREMENT`, `software_title_id INTEGER UNIQUE NOT NULL`,
`name TEXT NOT NULL`, `created_at` and `updated_at` defaulting to the current time. -/
structure FlagRow where
  id : Nat
  softwareTitleId : Int
  name : String
  createdAt : Nat
  updatedAt : Nat
deriving Repr, DecidableEq

/-- A row of the `software_remarks` table (`src/backend/database.js`).
`remark TEXT` is nullable, so it is an `Option String` (`none` models SQL NULL). -/
structure RemarkRow where
  id : Nat
  softwareTitleId : Int
  remark : Option String
  createdAt : Nat
  updatedAt : Nat
deriving Repr, DecidableEq

/-- The whole local augmentation store: both tables plus the AUTOINCREMENT
sequence of each table (SQLite AUTOINCREMENT hands out strictly increasing,
never reused rowids; `flagSeq` / `remarkSeq` is the next id to be assigned). -/
structure Db where
  flags : List FlagRow
  remarks : List RemarkRow
  flagSeq : Nat
  remarkSeq : Nat
deriving Repr, DecidableEq

/-- A freshly created database: both tables empty, rowids starting at 1. -/
def emptyDb : Db := ⟨[], [], 1, 1⟩

/-- Responses produced by the routes. `okFlag` / `okRemark` carry the JSON body
`{ id: this.lastID, software_title_id, name/remark }` returned on a successful
upsert, `okDeleted` carries `{ deleted: this.changes > 0 }`, and
`validationError` is the `res.status(400).json({ error: ... })` branch. -/
inductive Response where
  | okFlag (id : Nat) (softwareTitleId : Int) (name : String)
  | okRemark (id : Nat) (softwareTitleId : Int) (remark : Option String)
  | okDeleted (deleted : Bool)
  | validationError (msg : String)
deriving Repr, DecidableEq

/-- The HTTP status code of a response: 400 for the validation branch,
200 (Express's default for `res.json`) otherwise. -/
def Response.status : Response → Nat
  | .validationError _ => 400
  | _ => 200

/-- `POST /api/open-source` (`src/backend/routes/openSource.js` lines 19-38).
The body fields are modelled as the values the JSON API actually receives from
the client: `software_title_id` a JSON number (`Option Int`, `none` = absent)
and `name` a JSON string (`Option String`). The guard
`if (!software_title_id || !name)` rejects, by JavaScript truthiness, exactly
an absent field, the number `0` and the empty string. Otherwise
`INSERT OR REPLACE INTO open_source_software (software_title_id, name, updated_at)
VALUES (?, ?, CURRENT_TIMESTAMP)` runs: the conflicting row (same unique
`software_title_id`), if any, is deleted and a brand-new row is inserted with a
fresh AUTOINCREMENT id and `created_at` taking its column default
`CURRENT_TIMESTAMP`. -/
def postOpenSource (softwareTitleId : Option Int) (name : Option String)
    (now : Nat) (db : Db) : Response × Db :=
  match softwareTitleId, name with
  | some n, some s =>
      if n = 0 ∨ s = "" then
        (.validationError "software_title_id and name are required", db)
      else
        (.okFlag db.flagSeq n s,
          { db with
              flags := db.flags.filter (fun r => r.softwareTitleId ≠ n)
                ++ [⟨db.flagSeq, n, s, now, now⟩],
              flagSeq := db.flagSeq + 1 })
  | _, _ => (.validationError "software_title_id and name are required", db)

/-- `DELETE /api/open-source/:software_title_id`
(`src/backend/routes/openSource.js` lines 41-55):
`DELETE FROM open_source_software WHERE software_title_id = ?`, answering
`{ deleted: this.changes > 0 }` where `this.changes` is the number of rows
removed; there is no error branch for an absent row. -/
def deleteOpenSource (softwareTitleId : Int) (db : Db) : Response × Db :=
  (.okDeleted (0 < db.flags.countP (fun r => r.softwareTitleId = softwareTitleId)),
    { db with flags := db.flags.filter (fun r => r.softwareTitleId ≠ softwareTitleId) })

/-- `POST /api/software-remarks` (`src/backend/routes/softwareRemarks.js`
lines 19-38). Only `software_title_id` is validated (`if (!software_title_id)`);
`remark` may be absent (stored as NULL) or any string, the empty string
included. The write is the same `INSERT OR REPLACE` idiom as for flags. -/
def postSoftwareRemarks (softwareTitleId : Option Int) (remark : Option String)
    (now : Nat) (db : Db) : Response × Db :=
  match softwareTitleId with
  | some n =>
      if n = 0 then
        (.validationError "software_title_id is required", db)
      else
        (.okRemark db.remarkSeq n remark,
          { db with
              remarks := db.remarks.filter (fun r => r.softwareTitleId ≠ n)
                ++ [⟨db.remarkSeq, n, remark, now, now⟩],
              remarkSeq := db.remarkSeq + 1 })
  | none => (.validationError "software_title_id is required", db)

/-- Insertion step for `ORDER BY name`. -/
def insertByName (r : FlagRow) : List FlagRow → List FlagRow
  | [] => [r]
  | x :: t => if r.name ≤ x.name then r :: x :: t else x :: insertByName r t

/-- Sorting by `name`, the `ORDER BY name` of the flag listing query. -/
def sortByName : List FlagRow → List FlagRow
  | [] => []
  | x :: t => insertByName x (sortByName t)

/-- `GET /api/open-source` (`src/backend/routes/openSource.js` lines 8-16):
`SELECT * FROM open_source_software ORDER BY name`. -/
def getOpenSource (db : Db) : List FlagRow := sortByName db.flags

/-- `GET /api/software-remarks` (`src/backend/routes/softwareRemarks.js`
lines 8-16): `SELECT * FROM software_remarks` (no ORDER BY). -/
def getSoftwareRemarks (db : Db) : List RemarkRow := db.remarks

/-- One mutating API request against the local store. -/
inductive ApiOp where
  | flagUpsert (softwareTitleId : Option Int) (name : Option String) (now : Nat)
  | flagDelete (softwareTitleId : Int)
  | remarkUpsert (softwareTitleId : Option Int) (remark : Option String) (now : Nat)
deriving Repr, DecidableEq

/-- Apply one API request to the store, keeping only the resulting state. -/
def applyOp (db : Db) : ApiOp → Db
  | .flagUpsert stid nm now => (postOpenSource stid nm now db).2
  | .flagDelete stid => (deleteOpenSource stid db).2
  | .remarkUpsert stid rmk now => (postSoftwareRemarks stid rmk now db).2

/-- Run a sequence of API requests from a starting state. -/
def runOps (db : Db) : List ApiOp → Db
  | [] => db
  | op :: t => runOps (applyOp db op) t

theorem sortByName_perm (l : List FlagRow) : List.Perm (sortByName l) l := by
  induction l with
  | nil => simp [sortByName]
  | cons x t ih =>
      have h : ∀ (r : FlagRow) (m : List FlagRow), List.Perm (insertByName r m) (r :: m) := by
        intro r m
        induction m with
        | nil => simp [insertByName]
        | cons y s ihm =>
            by_cases hle : r.name ≤ y.name
            · simp [insertByName, hle]
            · simp only [insertByName, if_neg hle]
              exact (ihm.cons y).trans (List.Perm.swap r y s)
      exact (h x (sortByName t)).trans (ih.cons x)

theorem getOpenSource_countP (db : Db) (p : FlagRow → Bool) :
    (getOpenSource db).countP p = db.flags.countP p :=
  (sortByName_perm db.flags).countP_eq p

theorem getOpenSource_mem (db : Db) (r : FlagRow) :
    r ∈ getOpenSource db ↔ r ∈ db.flags :=
  (sortByName_perm db.flags).mem_iff

/-! ### Client-side export enrichment (`src/src/pages/SoftwareListPage.tsx`) -/

/-- The `SoftwareVersion` interface of `SoftwareListPage.tsx`:
`vulnerabilities: string[] | null` becomes `Option (List String)`. -/
structure SoftwareVersion where
  id : Int
  version : String
  vulnerabilities : Option (List String)
deriving Repr, DecidableEq

/-- The `SoftwareTitle` interface of `SoftwareListPage.tsx`. -/
structure SoftwareTitle where
  id : Int
  name : String
  hostsCount : Nat
  versionsCount : Nat
  versions : List SoftwareVersion
  source : String
deriving Repr, DecidableEq

/-- JavaScript's `x || 'Unknown'` applied to the optional
`data.software?.vendor` string: an absent value and the empty string (both
falsy) become "Unknown". -/
def jsOrUnknown : Option String → String
  | none => "Unknown"
  | some s => if s = "" then "Unknown" else s

/-- Lookup in an association list, the shallow model of a JS
`Map<number, string>` (`vendorMap.get`). -/
def mapGet : List (Int × String) → Int → Option String
  | [], _ => none
  | (k, v) :: t, i => if i = k then some v else mapGet t i

/-- `Map.set`: the new binding shadows any previous binding of the key. -/
def mapSet (m : List (Int × String)) (k : Int) (v : String) : List (Int × String) :=
  (k, v) :: m

/-- The outcome one vendor lookup contributes to `vendorMap`: on a 2xx
response the value is `data.software?.vendor || 'Unknown'`, and the catch
branch of a thrown error (network failure or non-2xx) stores "Unknown". -/
def vendorResult : Except Unit (Option String) → String
  | .ok v => jsOrUnknown v
  | .error _ => "Unknown"

/-- The accumulated effect of the batched enrichment loop on `vendorMap`:
every software title with versions gets `vendorMap.set(software.id, ...)`
with its own lookup's `vendorResult`. `lookup` abstracts the
`fetch('/api/latest/fleet/software/' + versions[0].id)` call: `Except.error`
is a throw (network failure or a non-ok status re-thrown by the handler). -/
def enrich (lookup : SoftwareTitle → Except Unit (Option String)) :
    List SoftwareTitle → List (Int × String) → List (Int × String)
  | [], m => m
  | s :: t, m => enrich lookup t (mapSet m s.id (vendorResult (lookup s)))

/-- JavaScript's `s.charAt(0).toUpperCase() + s.slice(1)` used for the
`Type` column. -/
def jsCapitalize (s : String) : String := (s.take 1).toUpper ++ s.drop 1

/-- One row of the CSV produced by `handleExport` in `SoftwareListPage.tsx`. -/
structure ExportRow where
  name : String
  typeCol : String
  vendor : String
  hostCount : Nat
  versionCount : Nat
  vulnerabilitiesCount : Nat
  openSource : String
  remark : String
deriving Repr, DecidableEq

/-- `version.vulnerabilities?.length || 0` summed over the versions. -/
def vulnCount (s : SoftwareTitle) : Nat :=
  s.versions.foldl (fun c v => c + (v.vulnerabilities.map List.length).getD 0) 0

/-- The pure content of `handleExport` (`SoftwareListPage.tsx` lines 715-785):
filter the fetched titles to those with versions, enrich `vendorMap` batch by
batch (the batching affects timing only, so the map is the fold `enrich`),
then build one export row per fetched title. `openSourceSet` models the
`openSourceList : Set<number>` state and `remarksMap` the `remarks` record
(`remarks[software.id] || ''`). -/
def handleExport (lookup : SoftwareTitle → Except Unit (Option String))
    (openSourceSet : Int → Bool) (remarksMap : Int → Option String)
    (allSoftware : List SoftwareTitle) : List ExportRow :=
  allSoftware.map (fun s =>
    { name := s.name
      typeCol := jsCapitalize s.source
      vendor := jsOrUnknown
        (mapGet (enrich lookup (allSoftware.filter (fun x => 0 < x.versions.length)) []) s.id)
      hostCount := s.hostsCount
      versionCount := s.versionsCount
      vulnerabilitiesCount := vulnCount s
      openSource := if openSourceSet s.id then "Yes" else "No"
      remark := (remarksMap s.id).getD "" })

/-! ### Batch structure and scheduling trace of the enrichment loop -/

/-- `const batchSize = 20;` in `handleExport`. -/
def batchSize : Nat := 20

/-- The batches of the loop `for (let i = 0; i < n; i += batchSize)
{ const batch = list.slice(i, i + batchSize); ... }`: consecutive chunks of
`batchSize` elements, the last one possibly shorter. -/
def chunks : List SoftwareTitle → List (List SoftwareTitle)
  | [] => []
  | x :: t => ((x :: t).take batchSize) :: chunks ((x :: t).drop batchSize)
termination_by l => l.length
decreasing_by
  simp only [List.length_drop, List.length_cons, batchSize]
  omega

/-- Observable scheduling events of one run of the enrichment loop:
`lookupStart i` is the issuing of the vendor fetch for title `i` (the
`batch.map(async ...)` call), `batchBarrier` is the `await
Promise.all(vendorPromises)` after which every lookup of the batch has
settled, and `interBatchDelay d` is the
`await new Promise(resolve => setTimeout(resolve, d))` throttle. -/
inductive ExportEvent where
  | lookupStart (softwareTitleId : Int)
  | batchBarrier
  | interBatchDelay (ms : Nat)
deriving Repr, DecidableEq

/-- The scheduling trace of the enrichment loop, read off the code: each
iteration issues the lookups of `slice(i, i + batchSize)`, awaits them all,
and — only when `i + batchSize < length`, i.e. when titles remain — sleeps
100ms before the next iteration. -/
def exportTrace : List SoftwareTitle → List ExportEvent
  | [] => []
  | x :: t =>
      ((x :: t).take batchSize).map (fun s => .lookupStart s.id)
        ++ [.batchBarrier]
        ++ (if ((x :: t).drop batchSize).isEmpty then []
            else .interBatchDelay 100 :: exportTrace ((x :: t).drop batchSize))
termination_by l => l.length
decreasing_by
  simp only [List.length_drop, List.length_cons, batchSize]
  omega

/-- The trace the spec describes, assembled batch by batch from a given batch
list: all of a batch's lookups, then the await-all barrier, then — between
consecutive batches only — a fixed 100ms delay. -/
def traceOfBatches : List (List SoftwareTitle) → List ExportEvent
  | [] => []
  | [b] => b.map (fun s => .lookupStart s.id) ++ [.batchBarrier]
  | b :: b2 :: t =>
      b.map (fun s => .lookupStart s.id) ++ [.batchBarrier]
        ++ .interBatchDelay 100 :: traceOfBatches (b2 :: t)

/-! ### Per-session vendor cache (`OpenSourceSoftwarePage`, `src/unnamed/part_002`) -/

/-- The client-side state relevant to vendor lookups: the `vendorCache`
`Map<number, string>`, the `vendorInfo` React state record, and a log of the
software-title ids for which an upstream vendor fetch was actually issued
(each `fetch('/api/latest/fleet/software/' + versionId)` appends the title id
it serves). -/
structure ClientState where
  vendorCache : List (Int × String)
  vendorInfo : List (Int × String)
  fetchLog : List Int
deriving Repr, DecidableEq

/-- The state at page load: empty cache, empty state record, nothing fetched. -/
def initialClientState : ClientState := ⟨[], [], []⟩

/-- `fetchVendorInfo(versionId, softwareId)` (`src/unnamed/part_002` lines
48-91): return the cached vendor if `vendorCache.has(softwareId)`; else, if
`vendorInfo[softwareId]` is truthy (a non-empty string), cache and return it;
otherwise fetch the vendor endpoint (logged), and on success store
`data.software?.vendor || 'Unknown'` in both the cache and the state before
returning it, while a thrown error returns "Unknown" without caching.
`upstream` abstracts the fetch, keyed by the version id. -/
def fetchVendorInfo (upstream : Int → Except Unit (Option String))
    (versionId softwareId : Int) (st : ClientState) : String × ClientState :=
  match mapGet st.vendorCache softwareId with
  | some v => (v, st)
  | none =>
      match mapGet st.vendorInfo softwareId with
      | some v =>
          if v ≠ "" then
            (v, { st with vendorCache := mapSet st.vendorCache softwareId v })
          else
            fetchVendorStep upstream versionId softwareId st
      | none => fetchVendorStep upstream versionId softwareId st
where
  fetchVendorStep (upstream : Int → Except Unit (Option String))
      (versionId softwareId : Int) (st : ClientState) : String × ClientState :=
    match upstream versionId with
    | .ok v =>
        (jsOrUnknown v,
          { st with
              vendorCache := mapSet st.vendorCache softwareId (jsOrUnknown v)
              vendorInfo := mapSet st.vendorInfo softwareId (jsOrUnknown v)
              fetchLog := st.fetchLog ++ [softwareId] })
    | .error _ => ("Unknown", { st with fetchLog := st.fetchLog ++ [softwareId] })

/-- The enrichment loop of `handleExport` in `OpenSourceSoftwarePage`
(`src/unnamed/part_002` lines 227-266), restricted to its interaction with
the client state: for every candidate (a `(versionId, softwareTitleId)` pair
whose details have versions) it issues the vendor fetch unconditionally —
the `vendorCache` is never consulted — and records the result in the local
`vendorMap` only. -/
def exportEnrichOS (upstream : Int → Except Unit (Option String)) :
    List (Int × Int) → List (Int × String) → ClientState → List (Int × String) × ClientState
  | [], m, st => (m, st)
  | (versionId, softwareTitleId) :: t, m, st =>
      exportEnrichOS upstream t
        (mapSet m softwareTitleId (vendorResult (upstream versionId)))
        { st with fetchLog := st.fetchLog ++ [softwareTitleId] }

/-- One vendor-lookup-relevant client action during a page session: a lookup
through `fetchVendorInfo` (as the list-rendering path does) or one run of the
export enrichment over its candidates. -/
inductive ClientOp where
  | viaFetchVendorInfo (versionId softwareTitleId : Int)
  | viaExport (candidates : List (Int × Int))
deriving Repr, DecidableEq

/-- Run a session: apply each client action in order to the client state. -/
def runClientOps (upstream : Int → Except Unit (Option String))
    (st : ClientState) : List ClientOp → ClientState
  | [] => st
  | .viaFetchVendorInfo vid sid :: t =>
      runClientOps upstream (fetchVendorInfo upstream vid sid st).2 t
  | .viaExport cands :: t =>
      runClientOps upstream (exportEnrichOS upstream cands [] st).2 t

/-! ### Concrete sample data used to exercise the model -/

/-- A sample software title with one version and no vulnerabilities. -/
def swA : SoftwareTitle := ⟨1, "alpha", 2, 1, [⟨100, "1.0", none⟩], "apps"⟩

/-- A second sample software title with one vulnerable version. -/
def swB : SoftwareTitle := ⟨2, "beta", 3, 1, [⟨200, "2.0", some ["CVE-2024-0001"]⟩], "apps"⟩

/-- A vendor lookup that always fails for title id 1 and resolves "Acme"
for everything else. -/
def lookupFail1 : SoftwareTitle → Except Unit (Option String) :=
  fun s => if s.id = 1 then .error () else .ok (some "Acme")

/-- An upstream vendor endpoint that always answers with vendor "Acme". -/
def acmeUpstream : Int → Except Unit (Option String) := fun _ => .ok (some "Acme")

/-- 25 copies of `swA`: enough export candidates to span two batches. -/
def exportSample : List SoftwareTitle := List.replicate 25 swA

/-! ### Helper lemmas -/

theorem postOpenSource_success (n : Int) (s : String) (t : Nat) (db : Db)
    (hn : n ≠ 0) (hs : s ≠ "") :
    postOpenSource (some n) (some s) t db
      = (.okFlag db.flagSeq n s,
         { db with
             flags := db.flags.filter (fun r => r.softwareTitleId ≠ n)
               ++ [⟨db.flagSeq, n, s, t, t⟩],
             flagSeq := db.flagSeq + 1 }) := by
  simp [postOpenSource, hn, hs]

theorem postSoftwareRemarks_success (n : Int) (rmk : Option String) (t : Nat) (db : Db)
    (hn : n ≠ 0) :
    postSoftwareRemarks (some n) rmk t db
      = (.okRemark db.remarkSeq n rmk,
         { db with
             remarks := db.remarks.filter (fun r => r.softwareTitleId ≠ n)
               ++ [⟨db.remarkSeq, n, rmk, t, t⟩],
             remarkSeq := db.remarkSeq + 1 }) := by
  simp [postSoftwareRemarks, hn]

theorem countP_filter_ne (l : List FlagRow) (n : Int) :
    (l.filter (fun r => r.softwareTitleId ≠ n)).countP
      (fun r => r.softwareTitleId = n) = 0 := by
  rw [List.countP_eq_zero]
  intro r hr
  have := List.of_mem_filter hr
  simpa using this

theorem countP_remarks_filter_ne (l : List RemarkRow) (n : Int) :
    (l.filter (fun r => r.softwareTitleId ≠ n)).countP
      (fun r => r.softwareTitleId = n) = 0 := by
  rw [List.countP_eq_zero]
  intro r hr
  have := List.of_mem_filter hr
  simpa using this

theorem postOpenSource_remarks_frame (stid : Option Int) (nm : Option String)
    (t : Nat) (db : Db) :
    (postOpenSource stid nm t db).2.remarks = db.remarks
    ∧ (postOpenSource stid nm t db).2.remarkSeq = db.remarkSeq := by
  rcases stid with _ | n
  · exact ⟨rfl, rfl⟩
  · rcases nm with _ | s
    · exact ⟨rfl, rfl⟩
    · by_cases h : n = 0 ∨ s = "" <;> simp [postOpenSource, h]

theorem postSoftwareRemarks_flags_frame (stid : Option Int) (rmk : Option String)
    (t : Nat) (db : Db) :
    (postSoftwareRemarks stid rmk t db).2.flags = db.flags
    ∧ (postSoftwareRemarks stid rmk t db).2.flagSeq = db.flagSeq := by
  rcases stid with _ | n
  · exact ⟨rfl, rfl⟩
  · by_cases h : n = 0 <;> simp [postSoftwareRemarks, h]

theorem filter_key_filter_ne {α : Type} (key : α → Int) (l : List α) (n m : Int)
    (h : m ≠ n) :
    (l.filter (fun r => key r ≠ n)).filter (fun r => key r = m)
      = l.filter (fun r => key r = m) := by
  rw [List.filter_filter]
  apply List.filter_congr
  intro a _
  by_cases hx : key a = m
  · have hxn : key a ≠ n := fun hc => h (hx ▸ hc)
    simp [hx, hxn, h]
  · simp [hx]

/-! ### Claims -/

/-- C1: for every software-title id and every pair of (valid, i.e. non-empty)
names, after `upsertFlag(id, n1)` then `upsertFlag(id, n2)` the flag listing
contains exactly one row whose `softwareTitleId` equals `id`, and that row's
`name` is `n2`. -/
theorem flag_upsert_uniqueness (n : Int) (s1 s2 : String) (t1 t2 : Nat) (db : Db)
    (hn : n ≠ 0) (h1 : s1 ≠ "") (h2 : s2 ≠ "") :
    (getOpenSource (postOpenSource (some n) (some s2) t2
        (postOpenSource (some n) (some s1) t1 db).2).2).countP
      (fun r => r.softwareTitleId = n) = 1
    ∧ ∀ r ∈ getOpenSource (postOpenSource (some n) (some s2) t2
          (postOpenSource (some n) (some s1) t1 db).2).2,
        r.softwareTitleId = n → r.name = s2 := by
  rw [postOpenSource_success n s1 t1 db hn h1]
  rw [postOpenSource_success n s2 t2 _ hn h2]
  constructor
  · rw [getOpenSource_countP]
    simp only [List.countP_append, countP_filter_ne]
    simp
  · intro r hr hid
    rw [getOpenSource_mem] at hr
    simp only [List.mem_append, List.mem_filter, List.mem_singleton] at hr
    rcases hr with ⟨_, hne⟩ | rfl
    · simp [hid] at hne
    · rfl

/-- Witness for C1 at concrete inputs. -/
theorem flag_upsert_uniqueness_witness :
    (getOpenSource (postOpenSource (some 1) (some "b") 1
        (postOpenSource (some 1) (some "a") 0 emptyDb).2).2).countP
      (fun r => r.softwareTitleId = 1) = 1
    ∧ ∀ r ∈ getOpenSource (postOpenSource (some 1) (some "b") 1
          (postOpenSource (some 1) (some "a") 0 emptyDb).2).2,
        r.softwareTitleId = 1 → r.name = "b" :=
  flag_upsert_uniqueness 1 "a" "b" 0 1 emptyDb (by decide) (by decide) (by decide)

/-- C3 counterexample: after `upsertFlag(1, "a")` at time 10 the flag row is
`⟨id 1, title 1, "a", created 10, updated 10⟩`; the repeated
`upsertFlag(1, "b")` at time 20 leaves the row `⟨id 2, title 1, "b",
created 20, updated 20⟩`. `INSERT OR REPLACE` replaced the whole row, so the
row id changed from 1 to 2 and `createdAt` from 10 to 20, contradicting the
claim that id and `createdAt` are unchanged. -/
theorem flag_upsert_changes_id_and_createdAt :
    (postOpenSource (some 1) (some "a") 10 emptyDb).2.flags
      = [⟨1, 1, "a", 10, 10⟩]
    ∧ (postOpenSource (some 1) (some "b") 20
        (postOpenSource (some 1) (some "a") 10 emptyDb).2).2.flags
      = [⟨2, 1, "b", 20, 20⟩]
    ∧ ¬ ((2 : Nat) = 1 ∧ (20 : Nat) = 10) := by
  decide

/-- C3 amended: a repeated `upsertFlag(id, name2)` replaces the row
wholesale. Under the AUTOINCREMENT invariant (every stored rowid is below
the sequence counter), the store afterwards has exactly one row for `id`,
whose `name` is `name2` and whose `updatedAt` — but also `createdAt` — is
the time of the upsert; its rowid is fresh and distinct from every id the
title's previous row had, and the invariant is preserved. -/
theorem flag_upsert_replaces_row (n : Int) (s : String) (t : Nat) (db : Db)
    (hn : n ≠ 0) (hs : s ≠ "")
    (hinv : ∀ r ∈ db.flags, r.id < db.flagSeq) :
    (postOpenSource (some n) (some s) t db).2.flags.countP
      (fun r => r.softwareTitleId = n) = 1
    ∧ (∀ r ∈ (postOpenSource (some n) (some s) t db).2.flags,
        r.softwareTitleId = n →
          r.name = s ∧ r.updatedAt = t ∧ r.createdAt = t
          ∧ ∀ r0 ∈ db.flags, r0.softwareTitleId = n → r.id ≠ r0.id)
    ∧ ∀ r ∈ (postOpenSource (some n) (some s) t db).2.flags,
        r.id < (postOpenSource (some n) (some s) t db).2.flagSeq := by
  rw [postOpenSource_success n s t db hn hs]
  refine ⟨?_, ?_, ?_⟩
  · simp only [List.countP_append, countP_filter_ne]
    simp
  · intro r hr hid
    simp only [List.mem_append, List.mem_filter, List.mem_singleton] at hr
    rcases hr with ⟨_, hne⟩ | rfl
    · simp [hid] at hne
    · refine ⟨rfl, rfl, rfl, ?_⟩
      intro r0 hr0 _
      exact Nat.ne_of_gt (hinv r0 hr0)
  · intro r hr
    simp only [List.mem_append, List.mem_filter, List.mem_singleton] at hr
    rcases hr with ⟨hmem, _⟩ | rfl
    · exact Nat.lt_succ_of_lt (hinv r hmem)
    · exact Nat.lt_succ_self _

/-- Witness for the amended C3 at concrete inputs. -/
theorem flag_upsert_replaces_row_witness :
    (postOpenSource (some 1) (some "b") 20
        (postOpenSource (some 1) (some "a") 10 emptyDb).2).2.flags.countP
      (fun r => r.softwareTitleId = 1) = 1
    ∧ (∀ r ∈ (postOpenSource (some 1) (some "b") 20
          (postOpenSource (some 1) (some "a") 10 emptyDb).2).2.flags,
        r.softwareTitleId = 1 →
          r.name = "b" ∧ r.updatedAt = 20 ∧ r.createdAt = 20
          ∧ ∀ r0 ∈ (postOpenSource (some 1) (some "a") 10 emptyDb).2.flags,
              r0.softwareTitleId = 1 → r.id ≠ r0.id)
    ∧ ∀ r ∈ (postOpenSource (some 1) (some "b") 20
          (postOpenSource (some 1) (some "a") 10 emptyDb).2).2.flags,
        r.id < (postOpenSource (some 1) (some "b") 20
          (postOpenSource (some 1) (some "a") 10 emptyDb).2).2.flagSeq :=
  flag_upsert_replaces_row 1 "b" 20 (postOpenSource (some 1) (some "a") 10 emptyDb).2
    (by decide) (by decide) (by decide)

/-- C4: an upsert-flag request with a missing field or an empty name is
answered with a 400 `validationError` and leaves the store untouched; the
remark upsert behaves the same when `software_title_id` is missing, while an
empty remark is accepted with a 200. -/
theorem upsert_validation (stid : Option Int) (nm rmk : Option String)
    (t : Nat) (db : Db)
    (h : stid = none ∨ nm = none ∨ nm = some "") :
    (postOpenSource stid nm t db).1.status = 400
    ∧ (∃ msg, (postOpenSource stid nm t db).1 = .validationError msg)
    ∧ (postOpenSource stid nm t db).2 = db
    ∧ (postSoftwareRemarks none rmk t db).1.status = 400
    ∧ (∃ msg, (postSoftwareRemarks none rmk t db).1 = .validationError msg)
    ∧ (postSoftwareRemarks none rmk t db).2 = db
    ∧ ∀ m : Int, m ≠ 0 → (postSoftwareRemarks (some m) (some "") t db).1.status = 200 := by
  have hflag : postOpenSource stid nm t db
      = (.validationError "software_title_id and name are required", db) := by
    rcases h with rfl | rfl | rfl
    · cases nm <;> simp [postOpenSource]
    · cases stid <;> simp [postOpenSource]
    · cases stid <;> simp [postOpenSource]
  refine ⟨by rw [hflag]; rfl, ⟨_, by rw [hflag]⟩, by rw [hflag], rfl, ⟨_, rfl⟩, rfl, ?_⟩
  intro m hm
  rw [postSoftwareRemarks_success m (some "") t db hm]
  rfl

/-- Witness for C4 at concrete inputs. -/
theorem upsert_validation_witness :
    (postOpenSource none (some "x") 0 emptyDb).1.status = 400
    ∧ (∃ msg, (postOpenSource none (some "x") 0 emptyDb).1 = .validationError msg)
    ∧ (postOpenSource none (some "x") 0 emptyDb).2 = emptyDb
    ∧ (postSoftwareRemarks none (some "r") 0 emptyDb).1.status = 400
    ∧ (∃ msg, (postSoftwareRemarks none (some "r") 0 emptyDb).1 = .validationError msg)
    ∧ (postSoftwareRemarks none (some "r") 0 emptyDb).2 = emptyDb
    ∧ ∀ m : Int, m ≠ 0 →
        (postSoftwareRemarks (some m) (some "") 0 emptyDb).1.status = 200 :=
  upsert_validation none (some "x") (some "r") 0 emptyDb (Or.inl rfl)

/-- C5: on a store with exactly one flag row for `id`, `deleteFlag(id)`
answers `deleted: true` and a second call answers `deleted: false`, after
which the listing has no row for `id`; deleting an id with no row is not an
error: it answers 200 with `deleted: false` and changes nothing. -/
theorem deleteFlag_idempotent (n : Int) (db : Db)
    (h1 : db.flags.countP (fun r => r.softwareTitleId = n) = 1) :
    (deleteOpenSource n db).1 = .okDeleted true
    ∧ (deleteOpenSource n (deleteOpenSource n db).2).1 = .okDeleted false
    ∧ (getOpenSource (deleteOpenSource n (deleteOpenSource n db).2).2).countP
        (fun r => r.softwareTitleId = n) = 0
    ∧ ∀ db0 : Db, db0.flags.countP (fun r => r.softwareTitleId = n) = 0 →
        (deleteOpenSource n db0).1 = .okDeleted false
        ∧ (deleteOpenSource n db0).1.status = 200
        ∧ (deleteOpenSource n db0).2 = db0 := by
  have habs : ∀ db0 : Db, db0.flags.countP (fun r => r.softwareTitleId = n) = 0 →
      (deleteOpenSource n db0).1 = .okDeleted false
      ∧ (deleteOpenSource n db0).1.status = 200
      ∧ (deleteOpenSource n db0).2 = db0 := by
    intro db0 h0
    have hfix : db0.flags.filter (fun r => r.softwareTitleId ≠ n) = db0.flags := by
      rw [List.filter_eq_self]
      intro r hr
      have := List.countP_eq_zero.mp h0 r hr
      simpa using this
    refine ⟨?_, ?_, ?_⟩
    · simp [deleteOpenSource, h0]
    · simp [deleteOpenSource, h0, Response.status]
    · show { db0 with
          flags := db0.flags.filter (fun r => r.softwareTitleId ≠ n) } = db0
      rw [hfix]
  have h2 : (deleteOpenSource n db).2.flags.countP
      (fun r => r.softwareTitleId = n) = 0 := by
    simp only [deleteOpenSource]
    exact countP_filter_ne db.flags n
  refine ⟨?_, (habs _ h2).1, ?_, habs⟩
  · simp [deleteOpenSource, h1]
  · rw [getOpenSource_countP]
    rw [(habs _ h2).2.2]
    exact h2

/-- Witness for C5 at concrete inputs. -/
theorem deleteFlag_idempotent_witness :
    (deleteOpenSource 1 (postOpenSource (some 1) (some "a") 0 emptyDb).2).1
      = .okDeleted true
    ∧ (deleteOpenSource 1 (deleteOpenSource 1
        (postOpenSource (some 1) (some "a") 0 emptyDb).2).2).1 = .okDeleted false
    ∧ (getOpenSource (deleteOpenSource 1 (deleteOpenSource 1
        (postOpenSource (some 1) (some "a") 0 emptyDb).2).2).2).countP
        (fun r => r.softwareTitleId = 1) = 0
    ∧ ∀ db0 : Db, db0.flags.countP (fun r => r.softwareTitleId = 1) = 0 →
        (deleteOpenSource 1 db0).1 = .okDeleted false
        ∧ (deleteOpenSource 1 db0).1.status = 200
        ∧ (deleteOpenSource 1 db0).2 = db0 :=
  deleteFlag_idempotent 1 (postOpenSource (some 1) (some "a") 0 emptyDb).2 (by decide)

/-- C6: `upsertRemark(id, "")` succeeds, and the remark listing afterwards
has a row for `id` whose remark is the empty string — a stored row, distinct
from having no row for `id` at all. -/
theorem remark_upsert_empty (n : Int) (t : Nat) (db : Db) (hn : n ≠ 0) :
    (postSoftwareRemarks (some n) (some "") t db).1.status = 200
    ∧ (getSoftwareRemarks (postSoftwareRemarks (some n) (some "") t db).2).countP
        (fun r => r.softwareTitleId = n) = 1
    ∧ ∀ r ∈ getSoftwareRemarks (postSoftwareRemarks (some n) (some "") t db).2,
        r.softwareTitleId = n → r.remark = some "" := by
  rw [postSoftwareRemarks_success n (some "") t db hn]
  refine ⟨rfl, ?_, ?_⟩
  · simp only [getSoftwareRemarks, List.countP_append, countP_remarks_filter_ne]
    simp
  · intro r hr hid
    simp only [getSoftwareRemarks, List.mem_append, List.mem_filter,
      List.mem_singleton] at hr
    rcases hr with ⟨_, hne⟩ | rfl
    · simp [hid] at hne
    · rfl

/-- Witness for C6 at concrete inputs. -/
theorem remark_upsert_empty_witness :
    (postSoftwareRemarks (some 1) (some "") 0 emptyDb).1.status = 200
    ∧ (getSoftwareRemarks (postSoftwareRemarks (some 1) (some "") 0 emptyDb).2).countP
        (fun r => r.softwareTitleId = 1) = 1
    ∧ ∀ r ∈ getSoftwareRemarks (postSoftwareRemarks (some 1) (some "") 0 emptyDb).2,
        r.softwareTitleId = 1 → r.remark = some "" :=
  remark_upsert_empty 1 0 emptyDb (by decide)

/-- C7: flags and remarks are independent. Every flag write (upsert or
delete) leaves the remarks table and its sequence untouched, every remark
upsert leaves the flags table and its sequence untouched, and each write
touches only its own id's row: the rows of every other id `m` are exactly
the rows `m` had before. -/
theorem flags_remarks_independent (stid : Option Int) (nm rmk : Option String)
    (t : Nat) (db : Db) (n m : Int) (hmn : m ≠ n) :
    (postOpenSource stid nm t db).2.remarks = db.remarks
    ∧ (postOpenSource stid nm t db).2.remarkSeq = db.remarkSeq
    ∧ (deleteOpenSource n db).2.remarks = db.remarks
    ∧ (deleteOpenSource n db).2.remarkSeq = db.remarkSeq
    ∧ (postSoftwareRemarks stid rmk t db).2.flags = db.flags
    ∧ (postSoftwareRemarks stid rmk t db).2.flagSeq = db.flagSeq
    ∧ (postOpenSource (some n) nm t db).2.flags.filter
        (fun r => r.softwareTitleId = m)
      = db.flags.filter (fun r => r.softwareTitleId = m)
    ∧ (deleteOpenSource n db).2.flags.filter (fun r => r.softwareTitleId = m)
      = db.flags.filter (fun r => r.softwareTitleId = m)
    ∧ (postSoftwareRemarks (some n) rmk t db).2.remarks.filter
        (fun r => r.softwareTitleId = m)
      = db.remarks.filter (fun r => r.softwareTitleId = m) := by
  have hnm : n ≠ m := Ne.symm hmn
  refine ⟨(postOpenSource_remarks_frame stid nm t db).1,
    (postOpenSource_remarks_frame stid nm t db).2, rfl, rfl,
    (postSoftwareRemarks_flags_frame stid rmk t db).1,
    (postSoftwareRemarks_flags_frame stid rmk t db).2, ?_, ?_, ?_⟩
  · rcases nm with _ | s
    · rfl
    · by_cases h : n = 0 ∨ s = ""
      · simp [postOpenSource, h]
      · push_neg at h
        have hflags : (postOpenSource (some n) (some s) t db).2.flags
            = db.flags.filter (fun r => r.softwareTitleId ≠ n)
              ++ [⟨db.flagSeq, n, s, t, t⟩] := by
          simp [postOpenSource, h.1, h.2]
        rw [hflags, List.filter_append,
          filter_key_filter_ne FlagRow.softwareTitleId db.flags n m hmn]
        simp [List.filter_cons, hnm]
  · exact filter_key_filter_ne FlagRow.softwareTitleId db.flags n m hmn
  · rcases eq_or_ne n 0 with rfl | hn
    · simp [postSoftwareRemarks]
    · have hremarks : (postSoftwareRemarks (some n) rmk t db).2.remarks
          = db.remarks.filter (fun r => r.softwareTitleId ≠ n)
            ++ [⟨db.remarkSeq, n, rmk, t, t⟩] := by
        simp [postSoftwareRemarks, hn]
      rw [hremarks, List.filter_append,
        filter_key_filter_ne RemarkRow.softwareTitleId db.remarks n m hmn]
      simp [List.filter_cons, hnm]

/-- Witness for C7 at concrete inputs. -/
theorem flags_remarks_independent_witness :
    (postOpenSource (some 1) (some "a") 0 emptyDb).2.remarks = emptyDb.remarks
    ∧ (postOpenSource (some 1) (some "a") 0 emptyDb).2.remarkSeq = emptyDb.remarkSeq
    ∧ (deleteOpenSource 1 emptyDb).2.remarks = emptyDb.remarks
    ∧ (deleteOpenSource 1 emptyDb).2.remarkSeq = emptyDb.remarkSeq
    ∧ (postSoftwareRemarks (some 1) (some "r") 0 emptyDb).2.flags = emptyDb.flags
    ∧ (postSoftwareRemarks (some 1) (some "r") 0 emptyDb).2.flagSeq = emptyDb.flagSeq
    ∧ (postOpenSource (some 1) (some "a") 0 emptyDb).2.flags.filter
        (fun r => r.softwareTitleId = 2)
      = emptyDb.flags.filter (fun r => r.softwareTitleId = 2)
    ∧ (deleteOpenSource 1 emptyDb).2.flags.filter (fun r => r.softwareTitleId = 2)
      = emptyDb.flags.filter (fun r => r.softwareTitleId = 2)
    ∧ (postSoftwareRemarks (some 1) (some "r") 0 emptyDb).2.remarks.filter
        (fun r => r.softwareTitleId = 2)
      = emptyDb.remarks.filter (fun r => r.softwareTitleId = 2) :=
  flags_remarks_independent (some 1) (some "a") (some "r") 0 emptyDb 1 2 (by decide)

theorem jsOrUnknown_ne_empty (v : Option String) : jsOrUnknown v ≠ "" := by
  cases v with
  | none => simp [jsOrUnknown]
  | some s => by_cases h : s = "" <;> simp [jsOrUnknown, h]

theorem jsOrUnknown_of_ne (s : String) (h : s ≠ "") : jsOrUnknown (some s) = s := by
  simp [jsOrUnknown, h]

theorem mapGet_mapSet (m : List (Int × String)) (k i : Int) (v : String) :
    mapGet (mapSet m k v) i = if i = k then some v else mapGet m i := rfl

theorem enrich_mapGet_not_mem (lookup : SoftwareTitle → Except Unit (Option String))
    (l : List SoftwareTitle) (m : List (Int × String)) (i : Int)
    (h : i ∉ l.map SoftwareTitle.id) :
    mapGet (enrich lookup l m) i = mapGet m i := by
  induction l generalizing m with
  | nil => rfl
  | cons a t ih =>
      simp only [List.map_cons, List.mem_cons, not_or] at h
      rw [enrich, ih _ h.2, mapGet_mapSet, if_neg h.1]

theorem enrich_mapGet_mem (lookup : SoftwareTitle → Except Unit (Option String))
    (l : List SoftwareTitle) (m : List (Int × String)) (s : SoftwareTitle)
    (hnd : (l.map SoftwareTitle.id).Nodup) (hs : s ∈ l) :
    mapGet (enrich lookup l m) s.id = some (vendorResult (lookup s)) := by
  induction l generalizing m with
  | nil => cases hs
  | cons a t ih =>
      simp only [List.map_cons, List.nodup_cons] at hnd
      rcases List.mem_cons.mp hs with rfl | hmem
      · rw [enrich, enrich_mapGet_not_mem lookup t _ s.id hnd.1, mapGet_mapSet,
          if_pos rfl]
      · exact ih _ hnd.2 hmem

/-- C2: if the vendor lookup for candidate `k` fails (throws or non-2xx),
the export still produces one row per candidate; candidate `k`'s Vendor
column is "Unknown", and the other candidates are unaffected: any candidate
whose lookup succeeds gets its looked-up vendor. No failure aborts the batch
or the export. -/
theorem export_batch_resilience
    (lookup : SoftwareTitle → Except Unit (Option String))
    (os : Int → Bool) (rm : Int → Option String)
    (l : List SoftwareTitle) (k : Nat) (sk : SoftwareTitle)
    (hnd : (l.map SoftwareTitle.id).Nodup)
    (hks : l[k]? = some sk)
    (hkv : 0 < sk.versions.length)
    (hfail : lookup sk = .error ()) :
    (handleExport lookup os rm l).length = l.length
    ∧ (handleExport lookup os rm l)[k]?.map ExportRow.vendor = some "Unknown"
    ∧ ∀ (j : Nat) (sj : SoftwareTitle) (v : Option String), j ≠ k →
        l[j]? = some sj → lookup sj = .ok v → 0 < sj.versions.length →
          (handleExport lookup os rm l)[j]?.map ExportRow.vendor
            = some (jsOrUnknown v) := by
  have hsubnd : ((l.filter (fun x => 0 < x.versions.length)).map
      SoftwareTitle.id).Nodup :=
    hnd.sublist ((List.filter_sublist l).map SoftwareTitle.id)
  have hvendor : ∀ (s : SoftwareTitle), s ∈ l → 0 < s.versions.length →
      mapGet (enrich lookup (l.filter (fun x => 0 < x.versions.length)) []) s.id
        = some (vendorResult (lookup s)) := by
    intro s hmem hv
    exact enrich_mapGet_mem lookup _ [] s hsubnd
      (List.mem_filter.mpr ⟨hmem, by simpa using hv⟩)
  refine ⟨by simp [handleExport], ?_, ?_⟩
  · have hmem : sk ∈ l := by
      obtain ⟨hlt, rfl⟩ := List.getElem?_eq_some_iff.mp hks
      exact List.getElem_mem hlt
    rw [handleExport, List.getElem?_map, hks]
    simp only [Option.map_some']
    rw [hvendor sk hmem hkv, hfail]
    rfl
  · intro j sj v _ hjs hok hjv
    have hmem : sj ∈ l := by
      obtain ⟨hlt, rfl⟩ := List.getElem?_eq_some_iff.mp hjs
      exact List.getElem_mem hlt
    rw [handleExport, List.getElem?_map, hjs]
    simp only [Option.map_some']
    rw [hvendor sj hmem hjv, hok]
    show some (jsOrUnknown (some (jsOrUnknown v))) = some (jsOrUnknown v)
    rw [jsOrUnknown_of_ne _ (jsOrUnknown_ne_empty v)]

/-- Witness for C2 at concrete inputs: two candidates, the lookup for the
first one always fails. -/
theorem export_batch_resilience_witness :
    (handleExport lookupFail1 (fun _ => false) (fun _ => none) [swA, swB]).length
      = [swA, swB].length
    ∧ (handleExport lookupFail1 (fun _ => false) (fun _ => none)
        [swA, swB])[0]?.map ExportRow.vendor = some "Unknown"
    ∧ ∀ (j : Nat) (sj : SoftwareTitle) (v : Option String), j ≠ 0 →
        [swA, swB][j]? = some sj → lookupFail1 sj = .ok v →
          0 < sj.versions.length →
          (handleExport lookupFail1 (fun _ => false) (fun _ => none)
            [swA, swB])[j]?.map ExportRow.vendor = some (jsOrUnknown v) :=
  export_batch_resilience lookupFail1 (fun _ => false) (fun _ => none)
    [swA, swB] 0 swA (by decide) rfl (by decide) rfl

theorem chunks_eq_nil_iff (l : List SoftwareTitle) : chunks l = [] ↔ l = [] := by
  cases l with
  | nil => simp [chunks]
  | cons x t => simp [chunks]

theorem chunks_flatten (l : List SoftwareTitle) : (chunks l).flatten = l := by
  induction l using chunks.induct with
  | case1 => simp [chunks]
  | case2 x t ih =>
      rw [chunks, List.flatten_cons, ih]
      exact List.take_append_drop _ _

theorem chunks_mem_size (l : List SoftwareTitle) :
    ∀ b ∈ chunks l, b ≠ [] ∧ b.length ≤ batchSize := by
  induction l using chunks.induct with
  | case1 => simp [chunks]
  | case2 x t ih =>
      intro b hb
      rw [chunks] at hb
      rcases List.mem_cons.mp hb with rfl | hmem
      · refine ⟨?_, List.length_take_le _ _⟩
        rw [← List.length_pos]
        simp [List.length_take, batchSize, Nat.lt_min]
      · exact ih b hmem

theorem chunks_full_size (l : List SoftwareTitle) :
    ∀ (i : Nat) (b : List SoftwareTitle), (chunks l)[i]? = some b →
      i + 1 < (chunks l).length → b.length = batchSize := by
  induction l using chunks.induct with
  | case1 =>
      intro i b hb _
      rw [chunks] at hb
      simp at hb
  | case2 x t ih =>
      intro i b hb hlen
      rw [chunks] at hb hlen
      cases i with
      | zero =>
          have hb0 : b = (x :: t).take batchSize := by
            simpa using hb.symm
          have hd : (x :: t).drop batchSize ≠ [] := by
            intro hnil
            rw [List.length_cons, (chunks_eq_nil_iff _).mpr hnil] at hlen
            simp at hlen
          have hlt : batchSize < (x :: t).length := by
            by_contra hle
            push_neg at hle
            exact hd (List.drop_eq_nil_of_le hle)
          rw [hb0]
          simp only [List.length_take]
          omega
      | succ j =>
          have hbj : (chunks ((x :: t).drop batchSize))[j]? = some b := by
            simpa using hb
          refine ih j b hbj ?_
          rw [List.length_cons] at hlen
          omega

theorem exportTrace_eq_traceOfBatches (l : List SoftwareTitle) :
    exportTrace l = traceOfBatches (chunks l) := by
  induction l using exportTrace.induct with
  | case1 => simp [exportTrace, chunks, traceOfBatches]
  | case2 x t ih =>
      rw [exportTrace, chunks]
      by_cases hd : ((x :: t).drop batchSize).isEmpty
      · have hnil : (x :: t).drop batchSize = [] := by simpa using hd
        rw [if_pos hd, hnil, (chunks_eq_nil_iff _).mpr rfl]
        simp [traceOfBatches]
      · rw [if_neg hd, ih]
        have hnil : (x :: t).drop batchSize ≠ [] := by
          intro hc
          rw [hc] at hd
          exact hd rfl
        obtain ⟨y, s, hys⟩ : ∃ y s, (x :: t).drop batchSize = y :: s := by
          cases hcase : (x :: t).drop batchSize with
          | nil => exact absurd hcase hnil
          | cons y s => exact ⟨y, s, rfl⟩
        rw [hys, chunks]
        simp [traceOfBatches]

/-- C8: the enrichment loop partitions the (version-bearing) export
candidates into consecutive batches of fixed size `batchSize = 20` (every
batch is non-empty and at most 20 long, all but the last exactly 20, and
their concatenation is the candidate list in order), and its scheduling
trace is exactly: all lookups of a batch, then the await-all barrier for
that batch, then — between consecutive batches only — a fixed 100ms delay
before any lookup of the next batch. -/
theorem export_batching (l : List SoftwareTitle) :
    batchSize = 20
    ∧ (chunks l).flatten = l
    ∧ (∀ b ∈ chunks l, b ≠ [] ∧ b.length ≤ batchSize)
    ∧ (∀ (i : Nat) (b : List SoftwareTitle), (chunks l)[i]? = some b →
        i + 1 < (chunks l).length → b.length = batchSize)
    ∧ exportTrace l = traceOfBatches (chunks l) :=
  ⟨rfl, chunks_flatten l, chunks_mem_size l, chunks_full_size l,
    exportTrace_eq_traceOfBatches l⟩

/-- Witness for C8 on a concrete 25-candidate list (two batches). -/
theorem export_batching_witness :
    batchSize = 20
    ∧ (chunks exportSample).flatten = exportSample
    ∧ (∀ b ∈ chunks exportSample, b ≠ [] ∧ b.length ≤ batchSize)
    ∧ (∀ (i : Nat) (b : List SoftwareTitle), (chunks exportSample)[i]? = some b →
        i + 1 < (chunks exportSample).length → b.length = batchSize)
    ∧ exportTrace exportSample = traceOfBatches (chunks exportSample) :=
  export_batching exportSample

theorem exportEnrichOS_fetchLog (upstream : Int → Except Unit (Option String))
    (cands : List (Int × Int)) (m : List (Int × String)) (st : ClientState) :
    (exportEnrichOS upstream cands m st).2.fetchLog
      = st.fetchLog ++ cands.map Prod.snd := by
  induction cands generalizing m st with
  | nil => simp [exportEnrichOS]
  | cons c t ih =>
      rw [exportEnrichOS.eq_def]
      cases c with
      | mk vid sid => simp [ih, List.append_assoc]

/-- C9 counterexample: in a session that resolves title id 1 through
`fetchVendorInfo` (one upstream fetch; the vendor "Acme" is then in the
cache) and afterwards runs the export enrichment with title 1 among its
candidates, the vendor endpoint is fetched for title 1 a second time: the
export path never consults the cache, so the claimed "at most one fetch per
title id per session, including the export path" is false. -/
theorem vendor_cache_bypassed_by_export :
    mapGet (runClientOps acmeUpstream initialClientState
        [.viaFetchVendorInfo 100 1]).vendorCache 1 = some "Acme"
    ∧ (runClientOps acmeUpstream initialClientState
        [.viaFetchVendorInfo 100 1, .viaExport [(100, 1)]]).fetchLog = [1, 1]
    ∧ ¬ ((runClientOps acmeUpstream initialClientState
        [.viaFetchVendorInfo 100 1, .viaExport [(100, 1)]]).fetchLog.count 1 ≤ 1) := by
  decide

/-- C9 amended: the vendor cache prevents a second upstream fetch only for
lookups that go through `fetchVendorInfo`: when the cache already holds the
title id, `fetchVendorInfo` returns the cached vendor with no fetch and no
state change. The export enrichment path does not consult the cache: it
issues one upstream fetch per candidate regardless of what was already
resolved. -/
theorem fetchVendorInfo_cache_hit (u : Int → Except Unit (Option String))
    (vid sid : Int) (st : ClientState) (v : String)
    (h : mapGet st.vendorCache sid = some v) :
    fetchVendorInfo u vid sid st = (v, st)
    ∧ ∀ (cands : List (Int × Int)) (m : List (Int × String)),
        (exportEnrichOS u cands m st).2.fetchLog
          = st.fetchLog ++ cands.map Prod.snd := by
  refine ⟨?_, fun cands m => exportEnrichOS_fetchLog u cands m st⟩
  rw [fetchVendorInfo, h]

/-- Witness for the amended C9 at concrete inputs. -/
theorem fetchVendorInfo_cache_hit_witness :
    fetchVendorInfo acmeUpstream 100 1
        (runClientOps acmeUpstream initialClientState [.viaFetchVendorInfo 100 1])
      = ("Acme",
         runClientOps acmeUpstream initialClientState [.viaFetchVendorInfo 100 1])
    ∧ ∀ (cands : List (Int × Int)) (m : List (Int × String)),
        (exportEnrichOS acmeUpstream cands m
            (runClientOps acmeUpstream initialClientState
              [.viaFetchVendorInfo 100 1])).2.fetchLog
          = (runClientOps acmeUpstream initialClientState
              [.viaFetchVendorInfo 100 1]).fetchLog ++ cands.map Prod.snd :=
  fetchVendorInfo_cache_hit acmeUpstream 100 1
    (runClientOps acmeUpstream initialClientState [.viaFetchVendorInfo 100 1])
    "Acme" (by decide)

theorem runOps_no_zero_flag (ops : List ApiOp) (db : Db)
    (h : ∀ r ∈ db.flags, r.softwareTitleId ≠ 0) :
    ∀ r ∈ (runOps db ops).flags, r.softwareTitleId ≠ 0 := by
  induction ops generalizing db with
  | nil => exact h
  | cons op t ih =>
      refine ih _ ?_
      intro r hr
      cases op with
      | flagUpsert stid nm now =>
          rcases stid with _ | n
          · exact h r hr
          · rcases nm with _ | s
            · exact h r hr
            · by_cases hcond : n = 0 ∨ s = ""
              · simp only [applyOp, postOpenSource, if_pos hcond] at hr
                exact h r hr
              · push_neg at hcond
                have hflags : (postOpenSource (some n) (some s) now db).2.flags
                    = db.flags.filter (fun q => q.softwareTitleId ≠ n)
                      ++ [⟨db.flagSeq, n, s, now, now⟩] := by
                  simp [postOpenSource, hcond.1, hcond.2]
                simp only [applyOp, hflags, List.mem_append,
                  List.mem_singleton] at hr
                rcases hr with hmem | rfl
                · exact h r (List.mem_of_mem_filter hmem)
                · exact hcond.1
      | flagDelete stid =>
          simp only [applyOp, deleteOpenSource] at hr
          exact h r (List.mem_of_mem_filter hr)
      | remarkUpsert stid rmk now =>
          rw [show (applyOp db (.remarkUpsert stid rmk now)).flags = db.flags from
            (postSoftwareRemarks_flags_frame stid rmk now db).1] at hr
          exact h r hr

/-- C10: the flag upsert checks field presence by JavaScript truthiness, so
a POST body whose `software_title_id` is the integer 0 — present and
non-empty, but falsy — is answered with a 400 validation error and no state
change; consequently no sequence of API requests starting from the empty
store ever creates a flag row with `softwareTitleId = 0`. -/
theorem flag_zero_id_never_created (nm : Option String) (t : Nat) (db : Db)
    (ops : List ApiOp) :
    (postOpenSource (some 0) nm t db).1.status = 400
    ∧ (∃ msg, (postOpenSource (some 0) nm t db).1 = .validationError msg)
    ∧ (postOpenSource (some 0) nm t db).2 = db
    ∧ ∀ r ∈ (runOps emptyDb ops).flags, r.softwareTitleId ≠ 0 := by
  have hzero : postOpenSource (some 0) nm t db
      = (.validationError "software_title_id and name are required", db) := by
    rcases nm with _ | s
    · rfl
    · simp [postOpenSource]
  refine ⟨by rw [hzero]; rfl, ⟨_, by rw [hzero]⟩, by rw [hzero], ?_⟩
  exact runOps_no_zero_flag ops emptyDb (by simp [emptyDb])

/-- Witness for C10 at concrete inputs: a session that tries to flag title 0
and then flags title 1. -/
theorem flag_zero_id_never_created_witness :
    (postOpenSource (some 0) (some "x") 0 emptyDb).1.status = 400
    ∧ (∃ msg, (postOpenSource (some 0) (some "x") 0 emptyDb).1
        = .validationError msg)
    ∧ (postOpenSource (some 0) (some "x") 0 emptyDb).2 = emptyDb
    ∧ ∀ r ∈ (runOps emptyDb [.flagUpsert (some 0) (some "x") 0,
        .flagUpsert (some 1) (some "a") 0]).flags, r.softwareTitleId ≠ 0 :=
  flag_zero_id_never_created (some "x") 0 emptyDb
    [.flagUpsert (some 0) (some "x") 0, .flagUpsert (some 1) (some "a") 0]

end Svreport
